import Mathlib

/-!
Verification of the entity-resolution and reconciliation core of the
patent-pipeline repository (`src/transformers/cleaner.py`, `src/config.py`,
`src/extractors/lens_extractor.py`).

The Python code is shallowly embedded: strings become `List Char`
(wrapped in `String` at record-field boundaries), pandas DataFrames become
`List PatentRecord` with a fixed schema, and the regular expressions of the
configuration tables become a small regex AST with Brzozowski-derivative
matching.  Python string operations are modelled for the ASCII inputs the
pipeline processes (`str.lower`/`upper` character-wise, `str.strip` on the
six ASCII whitespace characters, `str.isdigit` on ASCII digits); `$` in a
pattern is modelled as end-of-string (no input here carries a trailing
newline) and `re.match` as match-anchored-at-start.  DataFrame cells are
modelled as strings (no NaN): the pipeline's own cleaning replaces missing
values by the empty string before the operations studied here.
-/

/-! ## Definitions: the shallow embedding of the pipeline -/

/-- The six whitespace characters of Python `str.strip()` / `str.split()`
(ASCII fragment). -/
def isPySpace (c : Char) : Bool :=
  c = ' ' || c = '\t' || c = '\n' || c = '\r' || c = '\x0b' || c = '\x0c'

def isAsciiUpperAZ (c : Char) : Bool := 'A' ≤ c && c ≤ 'Z'

def isAsciiLowerAZ (c : Char) : Bool := 'a' ≤ c && c ≤ 'z'

def isAsciiDigit09 (c : Char) : Bool := '0' ≤ c && c ≤ '9'

def isAsciiLetter (c : Char) : Bool := isAsciiUpperAZ c || isAsciiLowerAZ c

/-- Python `\w` (ASCII fragment): letters, digits, underscore. -/
def isWordChar (c : Char) : Bool := isAsciiLetter c || isAsciiDigit09 c || c = '_'

def pyLowerChar (c : Char) : Char := if isAsciiUpperAZ c then Char.ofNat (c.toNat + 32) else c

def pyUpperChar (c : Char) : Char := if isAsciiLowerAZ c then Char.ofNat (c.toNat - 32) else c

def toLowerL (l : List Char) : List Char := l.map pyLowerChar

def toUpperL (l : List Char) : List Char := l.map pyUpperChar

/-- Remove trailing characters satisfying `p` (`reverse ∘ dropWhile p ∘ reverse`). -/
def dropTrail (p : Char → Bool) (l : List Char) : List Char :=
  (l.reverse.dropWhile p).reverse

/-- Python `str.strip()`: drop leading and trailing whitespace. -/
def pyStripL (l : List Char) : List Char :=
  (dropTrail isPySpace l).dropWhile isPySpace

/-- Python `str.strip(chars)` for an explicit character predicate. -/
def pyStripChars (p : Char → Bool) (l : List Char) : List Char :=
  (dropTrail p l).dropWhile p

def pyStr (l : List Char) : String := l.asString

/-- Accumulator pass for Python `str.split()`: `cur` holds the current
word reversed; whitespace flushes it. -/
def splitWsAux : List Char → List Char → List (List Char)
  | cur, [] => if cur.isEmpty then [] else [cur.reverse]
  | cur, c :: cs =>
    if isPySpace c then
      if cur.isEmpty then splitWsAux [] cs else cur.reverse :: splitWsAux [] cs
    else splitWsAux (c :: cur) cs

/-- Python `str.split()` (no argument): split on whitespace runs, no empties. -/
def splitWs (l : List Char) : List (List Char) := splitWsAux [] l

/-- Python `str.split(sep)` for a one-character separator (keeps empties). -/
def splitOnC (sep : Char) : List Char → List (List Char)
  | [] => [[]]
  | c :: cs =>
    let r := splitOnC sep cs
    if c = sep then [] :: r
    else
      match r with
      | [] => [[c]]
      | a :: as => (c :: a) :: as

/-- Python substring test `needle in hay` via an explicit prefix scan. -/
def isPrefOf : List Char → List Char → Bool
  | [], _ => true
  | _ :: _, [] => false
  | a :: as, b :: bs => a = b && isPrefOf as bs

def isSubstr (needle : List Char) : List Char → Bool
  | [] => isPrefOf needle []
  | b :: bs => isPrefOf needle (b :: bs) || isSubstr needle bs

/-- Python `str.isupper()`: at least one cased character and no lowercase
cased character (ASCII fragment: cased = letter). -/
def pyIsUpper (l : List Char) : Bool :=
  l.any isAsciiLetter && l.all (fun c => !isAsciiLetter c || isAsciiUpperAZ c)

/-- Python `str.isalpha()` (ASCII fragment). -/
def pyIsAlpha (l : List Char) : Bool :=
  !l.isEmpty && l.all isAsciiLetter

/-- Python `str.title()` (ASCII fragment): uppercase a letter after a
non-letter, lowercase a letter after a letter. -/
def pyTitleGo : Bool → List Char → List Char
  | _, [] => []
  | prevAlpha, c :: cs =>
    if isAsciiLetter c then
      (if prevAlpha then pyLowerChar c else pyUpperChar c) :: pyTitleGo true cs
    else
      c :: pyTitleGo false cs

def pyTitle (l : List Char) : List Char := pyTitleGo false l

/-- Python `str.isdigit()` on a string (ASCII fragment, used on dates). -/
def pyAllDigits (l : List Char) : Bool := l.all isAsciiDigit09

inductive CTag where
  | anyc  -- `.` : any character except newline
  | wsc   -- `\s`
  | wordc -- `\w`
deriving DecidableEq

def CTag.mem (t : CTag) (c : Char) : Bool :=
  match t with
  | .anyc => c ≠ '\n'
  | .wsc => isPySpace c
  | .wordc => isWordChar c

inductive Regex where
  | emp
  | eps
  | chr (c : Char)
  | cls (t : CTag)
  | alt (a b : Regex)
  | seq (a b : Regex)
  | star (a : Regex)
deriving DecidableEq

def Regex.nullable : Regex → Bool
  | .emp => false
  | .eps => true
  | .chr _ => false
  | .cls _ => false
  | .alt a b => a.nullable || b.nullable
  | .seq a b => a.nullable && b.nullable
  | .star _ => true

/-- Smart sequence constructor (absorbs `emp`, drops `eps`). -/
def Regex.seqS : Regex → Regex → Regex
  | .emp, _ => .emp
  | _, .emp => .emp
  | .eps, b => b
  | a, .eps => a
  | a, b => .seq a b

/-- Smart alternation constructor (absorbs `emp`). -/
def Regex.altS : Regex → Regex → Regex
  | .emp, b => b
  | a, .emp => a
  | a, b => .alt a b

def Regex.deriv : Regex → Char → Regex
  | .emp, _ => .emp
  | .eps, _ => .emp
  | .chr c', c => if c = c' then .eps else .emp
  | .cls t, c => if t.mem c then .eps else .emp
  | .alt a b, c => Regex.altS (a.deriv c) (b.deriv c)
  | .seq a b, c =>
    if a.nullable then Regex.altS (Regex.seqS (a.deriv c) b) (b.deriv c)
    else Regex.seqS (a.deriv c) b
  | .star a, c => Regex.seqS (a.deriv c) (.star a)

/-- Whole-string match. -/
def reFull (r : Regex) (s : List Char) : Bool :=
  (s.foldl Regex.deriv r).nullable

/-- Anchored-at-start match of some prefix (`re.match` without `$`). -/
def rePref (r : Regex) : List Char → Bool
  | [] => r.nullable
  | c :: cs => r.nullable || rePref (r.deriv c) cs

/-- A compiled config pattern: regex plus whether it ended in `$`. -/
structure Pat where
  re : Regex
  atEnd : Bool
deriving DecidableEq

/-- Python `re.match(pattern, s)` as a Boolean. -/
def pyMatch (p : Pat) (s : List Char) : Bool :=
  if p.atEnd then reFull p.re s else rePref p.re s

def rlit (s : String) : Regex := s.data.foldr (fun c r => Regex.seqS (.chr c) r) .eps

def rcat (l : List Regex) : Regex := l.foldr Regex.seqS .eps

def ropt (r : Regex) : Regex := .alt .eps r

/-- `\s*` -/
def wsS : Regex := .star (.cls .wsc)

/-- `\s+` -/
def wsP : Regex := .seq (.cls .wsc) (.star (.cls .wsc))

/-- `.*` -/
def dotS : Regex := .star (.cls .anyc)

/-- `\w+` -/
def wordP : Regex := .seq (.cls .wordc) (.star (.cls .wordc))

/-- Pattern anchored only at the start. -/
def pat (l : List Regex) : Pat := ⟨rcat l, false⟩

/-- Pattern with a trailing `$`. -/
def patE (l : List Regex) : Pat := ⟨rcat l, true⟩

def QFname : String := "Qatar Foundation for Education, Science and Community Development"

def MOEname : String := "Qatar Ministry of Education and Higher Education"

def QUname : String := "Qatar University"

def INSTITUTION_STANDARDS : List (Pat × String) := [
  (pat [rlit "qatar", wsS, rlit "found", dotS, rlit "education", dotS, rlit "science", dotS,
    rlit "community", dotS, rlit "dev", dotS], QFname),
  (pat [rlit "qatar", wsS, rlit "found", dotS, rlit "education", dotS, rlit "science", dotS,
    rlit "community"], QFname),
  (pat [rlit "qatar", wsS, rlit "found", dotS, rlit "science", dotS, rlit "education", dotS,
    rlit "community"], QFname),
  (pat [rlit "qatar", wsS, rlit "found", dotS, rlit "science", dotS, rlit "education", dotS,
    rlit "social"], QFname),
  (pat [rlit "qatar", wsS, rlit "found", dotS, rlit "for", wsS, rlit "science", wsS,
    rlit "education"], QFname),
  (pat [rlit "qatar", wsS, rlit "found", dotS, rlit "education", dotS, rlit "science", dotS],
    QFname),
  (pat [rlit "qatar", wsS, rlit "found", dotS, rlit "science", dotS, rlit "community"], QFname),
  (pat [rlit "qatar", wsS, rlit "foundation", wsS, rlit "for", wsS, rlit "education"], QFname),
  (pat [rlit "qatar", wsS, rlit "foundation", wsS, rlit "for", wsS, rlit "ed",
    ropt (.chr '.'), wsS, rlit "science"], QFname),
  (patE [rlit "qatar", wsS, rlit "foundation", wsS, ropt (.chr ','), wsS], QFname),
  (patE [rlit "qatar", wsS, rlit "found", ropt (.chr '.'), wsS, ropt (.chr ','), wsS], QFname),
  (pat [rlit "qatar", wsS, rlit "found", wsP, rlit "for", wsP], QFname),
  (pat [rlit "qatar", wsS, rlit "founation"], QFname),
  (pat [rlit "qatar", wsS, rlit "foundatiion"], QFname),
  (pat [rlit "qatar", wsS, rlit "founda", ropt (.chr 't'), rlit "ion"], QFname),
  (pat [rlit "qator", wsS, rlit "found"], QFname),
  (pat [rlit "qf", wsS, rlit "for", wsS, rlit "education"], QFname),
  (patE [rlit "qatar", wsP, rlit "found", wsS], QFname),
  (pat [rlit "qatar", wsS, rlit "mini", dotS, rlit "education", dotS, rlit "higher"], MOEname),
  (pat [rlit "qatar", wsS, rlit "ministry", dotS, rlit "education", dotS, rlit "higher"],
    MOEname),
  (pat [rlit "qatar", wsS, rlit "ministry", wsS, rlit "of", wsS, rlit "education"], MOEname),
  (pat [rlit "qatar", wsS, rlit "mini", dotS, rlit "of", dotS, rlit "education"], MOEname),
  (pat [rlit "ministry", dotS, rlit "education", dotS, rlit "qatar"], MOEname),
  (pat [rlit "moe", wsS, rlit "qatar"], MOEname),
  (patE [rlit "moehe", wsS], MOEname),
  (pat [rlit "univ", ropt (.chr '.'), wsS, rlit "qatar"], QUname),
  (pat [rlit "qatar", wsS, rlit "university", wsS, rlit "qstp", dotS], QUname),
  (patE [rlit "qatar", wsS, rlit "university", wsS, ropt (.chr ','), wsS], QUname),
  (pat [rlit "qatar", wsS, rlit "univ", ropt (.chr '.'), wsS], QUname),
  (pat [rlit "quatar", wsS, rlit "univ"], QUname),
  (pat [rlit "qatar", wsS, rlit "university", wsS, rlit "global", wsS, rlit "patent"], QUname),
  (pat [rlit "qatar", wsS, rlit "university", wsS, rlit "office"], QUname),
  (pat [rlit "qatar", wsS, rlit "university", wsS, rlit "al", wsS, rlit "tarfa"], QUname),
  (pat [rlit "qu", wsS, rlit "qstp"], QUname),
  (pat [rlit "hamad", wsS, rlit "med", dotS, rlit "corp"], "Hamad Medical Corporation"),
  (patE [rlit "hamad", wsS, rlit "medical", wsS], "Hamad Medical Corporation"),
  (patE [rlit "hmc", wsS], "Hamad Medical Corporation"),
  (pat [rlit "sidra", wsS, rlit "med", dotS], "Sidra Medicine"),
  (pat [rlit "sidra", wsS, rlit "research"], "Sidra Medicine"),
  (pat [rlit "hamad", wsS, rlit "bin", wsS, rlit "khalifa", wsS, rlit "univ", dotS],
    "Hamad Bin Khalifa University"),
  (patE [rlit "hbku", wsS], "Hamad Bin Khalifa University"),
  (pat [rlit "qatar", wsS, rlit "football", wsS, rlit "ass", dotS], "Qatar Football Association"),
  (patE [rlit "qfa", wsS], "Qatar Football Association"),
  (pat [rlit "maersk", wsS, rlit "oil", wsS, rlit "qatar", dotS], "Maersk Oil Qatar AS"),
  (pat [rlit "maersk", wsS, rlit "qatar"], "Maersk Oil Qatar AS"),
  (pat [rlit "college", dotS, rlit "north", wsS, rlit "atlantic", dotS, rlit "qatar"],
    "College of the North Atlantic Qatar"),
  (pat [rlit "cna", wsS, rlit "qatar"], "College of the North Atlantic Qatar"),
  (pat [rlit "cna-q"], "College of the North Atlantic Qatar"),
  (pat [rlit "texas", wsS, .chr 'a', wsS, ropt (.chr '&'), wsS, .chr 'm', wsS, rlit "univ",
    dotS], "Texas A&M University at Qatar"),
  (pat [rlit "tamu", wsS, rlit "qatar"], "Texas A&M University at Qatar"),
  (pat [rlit "tamuq"], "Texas A&M University at Qatar"),
  (pat [rlit "weill", wsS, rlit "cornell", dotS], "Weill Cornell Medicine-Qatar"),
  (pat [rlit "wcm", ropt (.chr '-'), .chr 'q'], "Weill Cornell Medicine-Qatar"),
  (pat [rlit "northwestern", dotS, rlit "qatar"], "Northwestern University in Qatar"),
  (pat [rlit "nu", ropt (.chr '-'), .chr 'q'], "Northwestern University in Qatar"),
  (pat [rlit "carnegie", wsS, rlit "mellon", dotS], "Carnegie Mellon University in Qatar"),
  (pat [rlit "cmu", ropt (.chr '-'), .chr 'q'], "Carnegie Mellon University in Qatar"),
  (pat [rlit "georgetown", dotS, rlit "qatar"], "Georgetown University in Qatar"),
  (pat [rlit "gu", ropt (.chr '-'), .chr 'q'], "Georgetown University in Qatar"),
  (pat [rlit "virginia", wsS, rlit "commonwealth", dotS, rlit "qatar"],
    "Virginia Commonwealth University in Qatar"),
  (pat [rlit "vcu", ropt (.chr '-'), .chr 'q'], "Virginia Commonwealth University in Qatar"),
  (pat [rlit "university", wsS, rlit "of", wsS, rlit "doha"],
    "University of Doha for Science and Technology"),
  (pat [rlit "udst"], "University of Doha for Science and Technology"),
  (pat [rlit "qatar", wsS, rlit "fertiliser"], "Qatar Fertiliser Company"),
  (pat [rlit "anti", dotS, rlit "doping", dotS, rlit "qatar"], "Anti-Doping Lab Qatar"),
  (pat [rlit "qatar", wsS, rlit "invest", dotS, rlit "authority"], "Qatar Investment Authority"),
  (patE [rlit "qia", wsS], "Qatar Investment Authority"),
  (pat [rlit "qatar", wsS, rlit "petroleum"], "Qatar Petroleum"),
  (patE [rlit "qp", wsS], "Qatar Petroleum"),
  (pat [rlit "qatar", wsS, rlit "energy"], "Qatar Energy"),
  (pat [rlit "qatar", wsS, rlit "national", wsS, rlit "research", wsS, rlit "fund"],
    "Qatar National Research Fund"),
  (patE [rlit "qnrf", wsS], "Qatar National Research Fund"),
  (pat [rlit "qatar", wsS, rlit "biobank"], "Qatar Biobank"),
  (pat [rlit "qatar", wsS, rlit "genome"], "Qatar Genome Programme"),
  (pat [rlit "qatar", wsS, rlit "computing", wsS, rlit "research"],
    "Qatar Computing Research Institute"),
  (patE [rlit "qcri", wsS], "Qatar Computing Research Institute"),
  (pat [rlit "qatar", wsS, rlit "environment", dotS, rlit "energy"],
    "Qatar Environment and Energy Research Institute"),
  (patE [rlit "qeeri", wsS], "Qatar Environment and Energy Research Institute"),
  (pat [rlit "qatar", wsS, rlit "biomedical", wsS, rlit "research"],
    "Qatar Biomedical Research Institute"),
  (patE [rlit "qbri", wsS], "Qatar Biomedical Research Institute"),
  (pat [rlit "iberdrola", wsS, rlit "qstp"], "Iberdrola QSTP LLC")]

/-- `GARBAGE_FRAGMENTS`, in declared order. -/
def GARBAGE_FRAGMENTS : List Pat := [
  patE [rlit "science", wsS, ropt (.alt (rlit "and") (.chr '&')), wsS, rlit "community", dotS],
  patE [rlit "education", wsS, ropt (.alt (rlit "and") (.chr '&')), wsS, rlit "science", dotS],
  patE [rlit "community", wsS, rlit "development", dotS],
  patE [rlit "social", wsS, rlit "development", dotS],
  patE [rlit "higher", wsS, rlit "education", dotS],
  patE [.alt (rlit "and") (.chr '&'), wsP, wordP, dotS],
  patE [rlit "for", wsP, wordP, dotS]]

def ORGANIZATION_KEYWORDS : List String := [
  "university", "univ", "college", "institute", "institution",
  "foundation", "corporation", "corp", "company", "co",
  "hospital", "medical", "medicine", "clinic", "health",
  "research", "laboratory", "lab", "center", "centre",
  "authority", "ministry", "government", "council",
  "bank", "petroleum", "oil", "gas", "energy",
  "qatar", "qf", "qu", "hbku", "hmc", "sidra",
  "texas a&m", "weill cornell", "carnegie mellon", "northwestern",
  "georgetown", "virginia commonwealth", "north atlantic",
  "iberdrola", "maersk", "exxon", "shell", "total",
  "llc", "ltd", "inc", "plc", "sa", "as", "ag",
  "gmbh", "bv", "nv", "spa", "srl"]

def QATAR_ORGANIZATIONS : List String := [
  QFname,
  "Qatar University",
  "Hamad Medical Corporation",
  "Sidra Medicine",
  "Hamad Bin Khalifa University",
  "Texas A&M University at Qatar",
  "Weill Cornell Medicine-Qatar",
  "Carnegie Mellon University in Qatar",
  "Northwestern University in Qatar",
  "Georgetown University in Qatar",
  "Virginia Commonwealth University in Qatar",
  "College of the North Atlantic Qatar",
  "University of Doha for Science and Technology",
  "Qatar Petroleum",
  "Qatar Energy",
  "Qatar National Research Fund",
  "Qatar Computing Research Institute",
  "Qatar Environment and Energy Research Institute",
  "Qatar Biomedical Research Institute",
  "Qatar Biobank",
  "Qatar Genome Programme",
  "Qatar Investment Authority",
  "Qatar Football Association",
  MOEname,
  "Maersk Oil Qatar AS",
  "Iberdrola QSTP LLC",
  "Anti-Doping Lab Qatar",
  "Qatar Fertiliser Company",
  "Qatar Airways",
  "Qatar National Bank",
  "Ooredoo",
  "Kahramaa",
  "Ashghal",
  "Qatar Rail",
  "Qatar Museums",
  "Qatar Science and Technology Park",
  "QSTP"]

/-- One attempt of `re.sub(r'\s*\[[A-Z]{2}\]\s*', '', name)` at the current
position: greedy whitespace, a bracketed two-letter uppercase code, greedy
trailing whitespace.  Returns the remainder on success.  (Greedy scanning
is exact here: `[` is never whitespace, so backtracking on `\s*` can never
turn a failure into a match.) -/
def ccAfter (l : List Char) : Option (List Char) :=
  match l.dropWhile isPySpace with
  | '[' :: a :: b :: ']' :: rest =>
    if isAsciiUpperAZ a && isAsciiUpperAZ b then some (rest.dropWhile isPySpace) else none
  | _ => none

/-- The left-to-right removal scan of `re.sub`, driven by a fuel
parameter so that it is structurally recursive (and hence reduces inside
the kernel).  A successful `ccAfter` consumes at least one character, so
fuel equal to the string length is always sufficient. -/
def stripCCFuel : Nat → List Char → List Char
  | 0, l => l
  | _ + 1, [] => []
  | fuel + 1, c :: cs =>
    match ccAfter (c :: cs) with
    | some rest => stripCCFuel fuel rest
    | none => c :: stripCCFuel fuel cs

/-- `re.sub(r'\s*\[[A-Z]{2}\]\s*', '', name)`: remove every bracketed
country code together with surrounding whitespace, scanning left to right. -/
def stripCC (l : List Char) : List Char := stripCCFuel l.length l

/-- The characters of Python `name.strip(' ,;.')`. -/
def isPunctStrip (c : Char) : Bool := c = ' ' || c = ',' || c = ';' || c = '.'

/-- The cleaned name reaching the pattern checks: `str(name).strip()`, then
country-code removal, then `strip(' ,;.')` (cleaner.py lines 117-123). -/
def candPre (name : String) : List Char :=
  pyStripChars isPunctStrip (stripCC (pyStripL name.data))

/-- `name_lower = name.lower().strip()` (cleaner.py line 129). -/
def candKey (name : String) : List Char := pyStripL (toLowerL (candPre name))

/-- The `GARBAGE_FRAGMENTS` scan (cleaner.py lines 130-132).  The input is
already lower-cased, so `re.IGNORECASE` has no effect on these patterns. -/
def garbageHit (nl : List Char) : Bool := GARBAGE_FRAGMENTS.any (fun g => pyMatch g nl)

/-- The ordered `INSTITUTION_STANDARDS` scan: first anchored match wins
(cleaner.py lines 134-138). -/
def stdLookup (nl : List Char) : Option String :=
  INSTITUTION_STANDARDS.findSome? (fun e => if pyMatch e.1 nl then some e.2 else none)

def joinSpace (ws : List (List Char)) : List Char := List.intercalate [' '] ws

/-- ALL-CAPS to title case, keeping short all-letter words verbatim
(cleaner.py lines 140-149). -/
def capsConvert (n : List Char) : List Char :=
  if pyIsUpper n && decide (4 < n.length) then
    joinSpace ((splitWs n).map (fun w =>
      if w.length ≤ 3 && pyIsAlpha w then w else pyTitle w))
  else n

/-- `"LASTNAME, FIRSTNAME"` to `"FIRSTNAME LASTNAME"`
(cleaner.py lines 151-158). -/
def commaRewrite (n : List Char) : List Char :=
  if n.contains ',' && (splitOnC ',' n).length = 2 then
    match splitOnC ',' n with
    | [p0, p1] =>
      if (splitWs p0).length = 1 && (splitWs (pyStripL p1)).length ≤ 2 then
        let nm := pyStripL p1 ++ ' ' :: pyStripL p0
        if pyIsUpper nm then pyTitle nm else nm
      else n
    | _ => n
  else n

/-- `standardize_name` (cleaner.py lines 112-160).  The
`names_standardized` statistics counter is a side effect with no influence
on the returned value and is not modelled. -/
def standardizeName (name : String) : String :=
  if name = "" then ""
  else
    let n3 := candPre name
    if n3.isEmpty then ""
    else
      let nl := pyStripL (toLowerL n3)
      if garbageHit nl then ""
      else
        match stdLookup nl with
        | some std => std
        | none => pyStr (pyStripL (commaRewrite (capsConvert n3)))

/-- `re.sub(r'[^a-z0-9]', '', p.lower())` (cleaner.py line 177). -/
def normKeyL (q : List Char) : List Char :=
  (toLowerL q).filter (fun c => isAsciiLowerAZ c || isAsciiDigit09 c)

/-- The loop body of `clean_name_field` (cleaner.py lines 171-181):
standardize each part, drop empties, keep a part only when its normalized
key is non-empty, longer than one character and unseen. -/
def fieldPartsAux (seen : List (List Char)) : List String → List String
  | [] => []
  | p :: ps =>
    let q := standardizeName p
    if q = "" then fieldPartsAux seen ps
    else
      let k := normKeyL q.data
      if !k.isEmpty && decide (1 < k.length) && !seen.contains k then
        q :: fieldPartsAux (k :: seen) ps
      else fieldPartsAux seen ps

def fieldParts (v : String) : List String :=
  fieldPartsAux [] ((splitOnC ';' v.data).map pyStr)

/-- `clean_name_field` (cleaner.py lines 162-183). -/
def cleanNameField (v : String) : String :=
  if v = "" then "" else String.intercalate "; " (fieldParts v)

structure PatentRecord where
  ResourceId : Int
  ApplicationNumber : String
  ApplicationDate : String
  PatentYear : String
  Title : String
  Abstract : String
  Applicants : String
  Inventors : String
  Owners : String
  PatentUrl : String
  DocumentTypeId : Int
  DocumentTypeName : String
  LegalStatusName : String
  Source : String
  ExtractedDate : String
deriving DecidableEq

/-- `_clean_text_fields` on one row (cleaner.py lines 94-107): strip
Title, Abstract, ApplicationNumber (missing values are already the empty
string, which `strip` fixes). -/
def cleanTextFields (r : PatentRecord) : PatentRecord :=
  { r with
    Title := pyStr (pyStripL r.Title.data),
    Abstract := pyStr (pyStripL r.Abstract.data),
    ApplicationNumber := pyStr (pyStripL r.ApplicationNumber.data) }

/-- `_standardize_institutions` on one row (cleaner.py lines 185-188). -/
def stdInstitutions (r : PatentRecord) : PatentRecord :=
  { r with
    Applicants := cleanNameField r.Applicants,
    Inventors := cleanNameField r.Inventors,
    Owners := cleanNameField r.Owners }

/-- `format_date` (cleaner.py lines 195-202). -/
def formatDate (d : String) : String :=
  if d = "" then ""
  else
    let t := pyStripL d.data
    if t.length = 8 && pyAllDigits t then
      pyStr (t.take 4 ++ '-' :: ((t.drop 4).take 2 ++ '-' :: (t.drop 6).take 2))
    else pyStr t

/-- `_format_dates` on one row (cleaner.py lines 192-208): reformat
ApplicationDate, then set PatentYear to the first four characters of the
updated column. -/
def formatDates (r : PatentRecord) : PatentRecord :=
  let d := formatDate r.ApplicationDate
  { r with ApplicationDate := d, PatentYear := pyStr (d.data.take 4) }

/-- `drop_duplicates(keep='first')` by a key: keep a row iff its key has
not been seen on an earlier row. -/
def dropDupsByAux (k : PatentRecord → List Char) (seen : List (List Char)) :
    List PatentRecord → List PatentRecord
  | [] => []
  | r :: rs =>
    if seen.contains (k r) then dropDupsByAux k seen rs
    else r :: dropDupsByAux k (k r :: seen) rs

def dropDupsBy (k : PatentRecord → List Char) (l : List PatentRecord) : List PatentRecord :=
  dropDupsByAux k [] l

/-- Pass-1 key: ApplicationNumber verbatim (cleaner.py line 215). -/
def appVerbatimKey (r : PatentRecord) : List Char := r.ApplicationNumber.data

/-- Pass-2 key and the merge title key:
`Title.str.lower().str[:100]` (cleaner.py lines 219 and 298-299). -/
def titleKey (r : PatentRecord) : List Char := (toLowerL r.Title.data).take 100

/-- `_deduplicate`: two sequential keep-first passes. -/
def deduplicate (l : List PatentRecord) : List PatentRecord :=
  dropDupsBy titleKey (dropDupsBy appVerbatimKey l)

/-- The characters kept by `normalize_app_num`'s `replace` chain. -/
def keepAppChar (c : Char) : Bool := !(c = ' ' || c = '.' || c = '-')

/-- `normalize_app_num` (cleaner.py lines 289-292): drop spaces, periods
and hyphens, uppercase, strip. -/
def normApp (l : List Char) : List Char :=
  pyStripL (toUpperL (l.filter keepAppChar))

/-- The merge-side standardization of a row: `_standardize_institutions`
then `_clean_text_fields` (cleaner.py lines 285-286 and 330-331). -/
def mergeStd (r : PatentRecord) : PatentRecord := cleanTextFields (stdInstitutions r)

def stdExisting (ex : List PatentRecord) : List PatentRecord := ex.map mergeStd

/-- `_norm_app` of one row. -/
def appKey (r : PatentRecord) : List Char := normApp r.ApplicationNumber.data

/-- `existing_apps` (cleaner.py line 302), computed on the re-standardized
existing rows.  Python's `set` is modelled by list membership. -/
def appKeys (ex : List PatentRecord) : List (List Char) := (stdExisting ex).map appKey

/-- `existing_titles` (cleaner.py line 303); `dropna` is a no-op in the
all-strings model. -/
def titleKeys (ex : List PatentRecord) : List (List Char) := (stdExisting ex).map titleKey

/-- The truly-new mask of one batch row (cleaner.py lines 305-308). -/
def tnPred (ex : List PatentRecord) (r : PatentRecord) : Bool :=
  !((appKeys ex).contains (appKey r) || (titleKeys ex).contains (titleKey r))

/-- `truly_new = new_df[mask]` (cleaner.py line 310): an order-preserving
filter of the batch. -/
def trulyNewList (new ex : List PatentRecord) : List PatentRecord :=
  new.filter (tnPred ex)

/-- `existing_df['ResourceId'].max()` guarded by emptiness
(cleaner.py lines 315-318): 50000 for an empty dataset. -/
def maxRid : List Int → Int
  | [] => 50000
  | x :: xs => xs.foldl max x

/-- `truly_new['ResourceId'] = range(max_id + 1, max_id + 1 + len)` -/
def assignIds : Int → List PatentRecord → List PatentRecord
  | _, [] => []
  | s, r :: rs => { r with ResourceId := s } :: assignIds (s + 1) rs

/-- `merge_with_existing`: standardize the existing rows, filter the batch
by both key sets, assign fresh ResourceIds, concatenate, and run the full
standardization pass once more over the concatenation. -/
def mergeWithExisting (new ex : List PatentRecord) : List PatentRecord :=
  let ex2 := stdExisting ex
  let assigned := assignIds (maxRid (ex2.map (fun r => r.ResourceId)) + 1) (trulyNewList new ex)
  (ex2 ++ assigned).map mergeStd

/-- The number of newly added records, as reported by the caller
(`app.py`: `len(merged) - len(existing)`). -/
def newCount (new ex : List PatentRecord) : Nat := (trulyNewList new ex).length

/-- The body after the emptiness guard; `orig` is the raw name, `nl` its
lower-cased stripped form. -/
def isOrgAux (orig nl : List Char) : Bool :=
  if ORGANIZATION_KEYWORDS.any (fun k => isSubstr k.data nl) then true
  else if QATAR_ORGANIZATIONS.any (fun o =>
      isSubstr (toLowerL o.data) nl || isSubstr nl (toLowerL o.data)) then true
  else
    let words := splitWs orig
    if 2 ≤ words.length && words.length ≤ 4 then
      let allShort := words.all (fun w => w.length < 15)
      let noNums := !(orig.any isAsciiDigit09)
      let hasOrgPat := (["&", "and", ",", ".", "of", "for", "the"] : List String).any
        (fun x => isSubstr x.data nl)
      if allShort && noNums && !hasOrgPat then
        if !(isSubstr "qatar".data nl) then false else true
      else true
    else true

/-- `_is_organization`: `if not name: return False`, then keyword,
registry and person-name heuristics with a default of `True`. -/
def isOrganization (name : String) : Bool :=
  if name = "" then false
  else isOrgAux name.data (pyStripL (toLowerL name.data))

/-- `range(s, s + n)` over `Int`. -/
def intRange (s : Int) : Nat → List Int
  | 0 => []
  | n + 1 => s :: intRange (s + 1) n

/-- Specification-side formulation of a keep-first pass: a row survives
iff no earlier row of the original list has the same key (`prev` is the
list of rows already scanned). -/
def firstOccAux (k : PatentRecord → List Char) (prev : List PatentRecord) :
    List PatentRecord → List PatentRecord
  | [] => []
  | r :: rs =>
    if prev.all (fun q => !(k q == k r)) then r :: firstOccAux k (prev ++ [r]) rs
    else firstOccAux k (prev ++ [r]) rs

def firstOccSpec (k : PatentRecord → List Char) (l : List PatentRecord) :
    List PatentRecord :=
  firstOccAux k [] l

/-- Placeholder entry for positional access into the table. -/
def dfltEntry : Pat × String := (⟨Regex.emp, false⟩, "")

/-- A blank record used as a base for concrete test rows. -/
def sampleRec : PatentRecord :=
  { ResourceId := 0, ApplicationNumber := "", ApplicationDate := "", PatentYear := "",
    Title := "", Abstract := "", Applicants := "", Inventors := "", Owners := "",
    PatentUrl := "", DocumentTypeId := 3, DocumentTypeName := "", LegalStatusName := "",
    Source := "", ExtractedDate := "" }

/-! ## Theorems -/

theorem dropWhile_len_le {α : Type} (p : α → Bool) (l : List α) :
    (l.dropWhile p).length ≤ l.length := by
  induction l with
  | nil => simp [List.dropWhile]
  | cons a l ih =>
    simp only [List.dropWhile]
    cases p a
    · simp
    · simp only [List.length_cons]
      omega

theorem dropWhile_append_all {p : Char → Bool} (w y : List Char)
    (hw : ∀ c ∈ w, p c = true) :
    (w ++ y).dropWhile p = y.dropWhile p := by
  induction w with
  | nil => simp
  | cons a w ih =>
    have ha : p a = true := hw a (by simp)
    simp only [List.cons_append, List.dropWhile_cons, ha, if_true]
    exact ih (fun c hc => hw c (by simp [hc]))

theorem dropTrail_append_all {p : Char → Bool} (y w : List Char)
    (hw : ∀ c ∈ w, p c = true) :
    dropTrail p (y ++ w) = dropTrail p y := by
  unfold dropTrail
  rw [List.reverse_append,
    dropWhile_append_all _ _ (fun c hc => hw c (List.mem_reverse.mp hc))]

theorem stripL_append_ws_right (y w : List Char)
    (hw : ∀ c ∈ w, isPySpace c = true) :
    pyStripL (y ++ w) = pyStripL y := by
  unfold pyStripL
  rw [dropTrail_append_all _ _ hw]

theorem stripL_append_ws_left (w y : List Char)
    (hw : ∀ c ∈ w, isPySpace c = true) :
    pyStripL (w ++ y) = pyStripL y := by
  unfold pyStripL dropTrail
  rw [List.reverse_append, List.dropWhile_append]
  have hwrev : ∀ c ∈ w.reverse, isPySpace c = true :=
    fun c hc => hw c (List.mem_reverse.mp hc)
  have hwnil : List.dropWhile isPySpace w.reverse = [] := by
    have := dropWhile_append_all (p := isPySpace) w.reverse [] hwrev
    simpa using this
  by_cases h : (List.dropWhile isPySpace y.reverse).isEmpty = true
  · rw [if_pos h, hwnil]
    have hy : List.dropWhile isPySpace y.reverse = [] := by
      cases heq : List.dropWhile isPySpace y.reverse with
      | nil => rfl
      | cons a as => rw [heq] at h; simp at h
    rw [hy]
  · rw [if_neg h, List.reverse_append, List.reverse_reverse,
      dropWhile_append_all _ _ hw]

/-- Every list splits as leading whitespace, its strip, trailing whitespace. -/
theorem strip_decomp (l : List Char) :
    ∃ w1 w2, (∀ c ∈ w1, isPySpace c = true) ∧ (∀ c ∈ w2, isPySpace c = true) ∧
      l = w1 ++ pyStripL l ++ w2 := by
  refine ⟨(dropTrail isPySpace l).takeWhile isPySpace,
    (l.reverse.takeWhile isPySpace).reverse,
    fun c hc => List.mem_takeWhile_imp hc,
    fun c hc => List.mem_takeWhile_imp (List.mem_reverse.mp hc), ?_⟩
  have h1 : dropTrail isPySpace l ++ (l.reverse.takeWhile isPySpace).reverse = l := by
    unfold dropTrail
    rw [← List.reverse_append, List.takeWhile_append_dropWhile, List.reverse_reverse]
  have h2 : (dropTrail isPySpace l).takeWhile isPySpace ++ pyStripL l
      = dropTrail isPySpace l := by
    unfold pyStripL
    exact List.takeWhile_append_dropWhile _ _
  calc l = dropTrail isPySpace l ++ (l.reverse.takeWhile isPySpace).reverse := h1.symm
  _ = ((dropTrail isPySpace l).takeWhile isPySpace ++ pyStripL l)
      ++ (l.reverse.takeWhile isPySpace).reverse := by rw [h2]
  _ = (dropTrail isPySpace l).takeWhile isPySpace ++ pyStripL l
      ++ (l.reverse.takeWhile isPySpace).reverse := by rw [List.append_assoc]

theorem pyStripL_idem (l : List Char) : pyStripL (pyStripL l) = pyStripL l := by
  obtain ⟨w1, w2, h1, h2, hl⟩ := strip_decomp l
  have h : pyStripL l = pyStripL (pyStripL l) := by
    conv_lhs => rw [hl]
    rw [List.append_assoc, stripL_append_ws_left _ _ h1, stripL_append_ws_right _ _ h2]
  exact h.symm

theorem pyUpperChar_ws {c : Char} (h : isPySpace c = true) :
    isPySpace (pyUpperChar c) = true := by
  have h' : ((((c = ' ' ∨ c = '\t') ∨ c = '\n') ∨ c = '\r') ∨ c = '\x0b') ∨ c = '\x0c' := by
    simpa [isPySpace] using h
  rcases h' with ((((rfl | rfl) | rfl) | rfl) | rfl) | rfl <;> decide

theorem allws_upper_filter (w : List Char) (hw : ∀ c ∈ w, isPySpace c = true) :
    ∀ c ∈ List.map pyUpperChar (w.filter keepAppChar), isPySpace c = true := by
  intro c hc
  obtain ⟨d, hd, rfl⟩ := List.mem_map.mp hc
  exact pyUpperChar_ws (hw d (List.mem_filter.mp hd).1)

/-- `normalize_app_num` does not care about a preparatory `strip`. -/
theorem normApp_pyStripL (l : List Char) : normApp (pyStripL l) = normApp l := by
  obtain ⟨w1, w2, h1, h2, hl⟩ := strip_decomp l
  conv_rhs => rw [hl]
  unfold normApp toUpperL
  rw [List.append_assoc, List.filter_append, List.filter_append,
    List.map_append, List.map_append,
    stripL_append_ws_left _ _ (allws_upper_filter w1 h1),
    stripL_append_ws_right _ _ (allws_upper_filter w2 h2)]

theorem pyStr_data (l : List Char) : (pyStr l).data = l := rfl

/-- The merge application-number key is invariant under the
standardization pass. -/
theorem appKey_mergeStd (r : PatentRecord) : appKey (mergeStd r) = appKey r := by
  unfold appKey mergeStd cleanTextFields stdInstitutions
  simp only [pyStr_data]
  exact normApp_pyStripL _

/-- The merge title key stabilizes after one standardization pass. -/
theorem titleKey_mergeStd_idem (r : PatentRecord) :
    titleKey (mergeStd (mergeStd r)) = titleKey (mergeStd r) := by
  unfold titleKey mergeStd cleanTextFields stdInstitutions
  simp only [pyStr_data, pyStripL_idem]

theorem rid_mergeStd (r : PatentRecord) : (mergeStd r).ResourceId = r.ResourceId := rfl

theorem rid_assign (r : PatentRecord) (s : Int) :
    ({ r with ResourceId := s } : PatentRecord).ResourceId = s := rfl

theorem appKey_assign (r : PatentRecord) (s : Int) :
    appKey { r with ResourceId := s } = appKey r := rfl

theorem titleKey_assign (r : PatentRecord) (s : Int) :
    titleKey (mergeStd (mergeStd { r with ResourceId := s }))
      = titleKey (mergeStd (mergeStd r)) := rfl

theorem map_appKey_assignIds (s : Int) (l : List PatentRecord) :
    (assignIds s l).map appKey = l.map appKey := by
  induction l generalizing s with
  | nil => rfl
  | cons r rs ih => simp only [assignIds, List.map_cons, appKey_assign, ih]

theorem titleKey_assign1 (r : PatentRecord) (s : Int) :
    titleKey (mergeStd { r with ResourceId := s }) = titleKey (mergeStd r) := rfl

theorem map_titleKey1_assignIds (s : Int) (l : List PatentRecord) :
    (assignIds s l).map (fun r => titleKey (mergeStd r))
      = l.map (fun r => titleKey (mergeStd r)) := by
  induction l generalizing s with
  | nil => rfl
  | cons r rs ih => simp only [assignIds, List.map_cons, titleKey_assign1, ih]

/-- The application-number key set of a merged dataset: the existing key
set followed by the keys of the truly-new records. -/
theorem appKeys_mergeWith (new ex : List PatentRecord) :
    appKeys (mergeWithExisting new ex)
      = appKeys ex ++ (trulyNewList new ex).map appKey := by
  simp only [appKeys, stdExisting, mergeWithExisting, List.map_append, List.map_map,
    Function.comp_def]
  simp only [appKey_mergeStd]
  rw [map_appKey_assignIds]

/-- The title key set of a merged dataset starts with the existing title
key set. -/
theorem titleKeys_mergeWith (new ex : List PatentRecord) :
    titleKeys (mergeWithExisting new ex)
      = titleKeys ex
        ++ (trulyNewList new ex).map (fun r => titleKey (mergeStd (mergeStd r))) := by
  simp only [titleKeys, stdExisting, mergeWithExisting, List.map_append, List.map_map,
    Function.comp_def]
  simp only [titleKey_mergeStd_idem]
  rw [map_titleKey1_assignIds]

/-- Core of merge idempotence: after `B` has been merged into `D`, no
record of `B` is classified truly new against the merged dataset. -/
theorem trulyNew_after_merge (B D : List PatentRecord) :
    trulyNewList B (mergeWithExisting B D) = [] := by
  rw [trulyNewList, List.filter_eq_nil_iff]
  intro r hr hpred
  unfold tnPred at hpred
  simp at hpred
  obtain ⟨happ, htit⟩ := hpred
  by_cases hp : tnPred D r = true
  · have hmem : r ∈ trulyNewList B D := List.mem_filter.mpr ⟨hr, hp⟩
    have h1 : appKey r ∈ (trulyNewList B D).map appKey := List.mem_map_of_mem _ hmem
    exact happ (by rw [appKeys_mergeWith]; exact List.mem_append_right _ h1)
  · have hfalse : tnPred D r = false := by
      cases h : tnPred D r
      · rfl
      · exact absurd h hp
    unfold tnPred at hfalse
    simp at hfalse
    by_cases hm : appKey r ∈ appKeys D
    · exact happ (by rw [appKeys_mergeWith]; exact List.mem_append_left _ hm)
    · exact htit (by rw [titleKeys_mergeWith]; exact List.mem_append_left _ (hfalse hm))

theorem map_rid_assignIds (s : Int) (l : List PatentRecord) :
    (assignIds s l).map (fun r => r.ResourceId) = intRange s l.length := by
  induction l generalizing s with
  | nil => rfl
  | cons r rs ih => simp only [assignIds, List.map_cons, List.length_cons, intRange, ih]

theorem len_assignIds (s : Int) (l : List PatentRecord) :
    (assignIds s l).length = l.length := by
  induction l generalizing s with
  | nil => rfl
  | cons r rs ih => simp only [assignIds, List.length_cons, ih]

theorem map_rid_stdExisting (ex : List PatentRecord) :
    (stdExisting ex).map (fun r => r.ResourceId) = ex.map (fun r => r.ResourceId) := by
  unfold stdExisting
  rw [List.map_map]
  apply List.map_congr_left
  intro r _
  exact rid_mergeStd r

/-- The ResourceId column of a merged dataset: the existing column
unchanged, followed by the freshly assigned contiguous range. -/
theorem map_rid_mergeWith (new ex : List PatentRecord) :
    (mergeWithExisting new ex).map (fun r => r.ResourceId)
      = ex.map (fun r => r.ResourceId)
        ++ intRange (maxRid (ex.map (fun r => r.ResourceId)) + 1) (newCount new ex) := by
  unfold mergeWithExisting newCount
  rw [List.map_map]
  have hcomp : ((fun r : PatentRecord => r.ResourceId) ∘ mergeStd)
      = (fun r : PatentRecord => r.ResourceId) := by
    funext r
    exact rid_mergeStd r
  rw [hcomp, List.map_append, map_rid_assignIds, map_rid_stdExisting]

theorem len_mergeWith (new ex : List PatentRecord) :
    (mergeWithExisting new ex).length = ex.length + newCount new ex := by
  have h := map_rid_mergeWith new ex
  have h1 : ∀ (l : List PatentRecord), (l.map (fun r => r.ResourceId)).length = l.length :=
    fun l => List.length_map l _
  have h2 : ∀ (s : Int) (n : Nat), (intRange s n).length = n := by
    intro s n
    induction n generalizing s with
    | zero => rfl
    | succ m ih => simp only [intRange, List.length_cons, ih]
  have := congrArg List.length h
  rw [h1, List.length_append, h1, h2] at this
  exact this

/-- Against an empty existing dataset every batch record is truly new. -/
theorem trulyNew_empty (new : List PatentRecord) : trulyNewList new [] = new := by
  unfold trulyNewList
  apply List.filter_eq_self.mpr
  intro r _
  rfl

theorem all_not_beq_eq_not_contains (k : PatentRecord → List Char)
    (prev : List PatentRecord) (x : List Char) :
    prev.all (fun q => !(k q == x)) = !((prev.map k).contains x) := by
  induction prev with
  | nil => rfl
  | cons q qs ih =>
    simp only [List.all_cons, List.map_cons, List.contains_cons, ih, Bool.not_or]
    have hbeq : (k q == x) = (x == k q) := by
      by_cases h : k q = x
      · subst h
        simp
      · have h1 : (k q == x) = false := beq_false_of_ne h
        have h2 : (x == k q) = false := beq_false_of_ne (Ne.symm h)
        rw [h1, h2]
    rw [hbeq, Bool.and_comm]

theorem contains_append_single (xs : List (List Char)) (x key : List Char) :
    (xs ++ [x]).contains key = (xs.contains key || key == x) := by
  induction xs with
  | nil =>
    cases hk : (key == x) with
    | false => simp [List.contains_cons, hk, ne_of_beq_false hk]
    | true => simp [List.contains_cons, hk, eq_of_beq hk]
  | cons a as ih =>
    simp only [List.cons_append, List.contains_cons, ih, Bool.or_assoc]

theorem dropDups_eq_firstOccAux (k : PatentRecord → List Char) :
    ∀ (l : List PatentRecord) (seen : List (List Char)) (prev : List PatentRecord),
    (∀ key : List Char, seen.contains key = (prev.map k).contains key) →
    dropDupsByAux k seen l = firstOccAux k prev l := by
  intro l
  induction l with
  | nil => intro seen prev _; rfl
  | cons r rs ih =>
    intro seen prev hinv
    unfold dropDupsByAux firstOccAux
    rw [all_not_beq_eq_not_contains, ← hinv]
    cases hc : seen.contains (k r) with
    | false =>
      have hinv2 : ∀ key : List Char,
          (k r :: seen).contains key = ((prev ++ [r]).map k).contains key := by
        intro key
        rw [List.contains_cons, List.map_append, List.map_cons, List.map_nil,
          contains_append_single, hinv key, Bool.or_comm]
      rw [ih (k r :: seen) (prev ++ [r]) hinv2]
      simp
    | true =>
      have hinv2 : ∀ key : List Char,
          seen.contains key = ((prev ++ [r]).map k).contains key := by
        intro key
        rw [List.map_append, List.map_cons, List.map_nil, contains_append_single,
          ← hinv key]
        cases hk : (key == k r) with
        | false => simp
        | true =>
          have hkey : key = k r := eq_of_beq hk
          subst hkey
          rw [hc]
          simp
      rw [ih seen (prev ++ [r]) hinv2]
      simp

/-- Each `drop_duplicates(keep='first')` pass keeps exactly the rows whose
key is not shared with any earlier row of its input. -/
theorem dropDupsBy_eq_firstOccSpec (k : PatentRecord → List Char)
    (l : List PatentRecord) :
    dropDupsBy k l = firstOccSpec k l :=
  dropDups_eq_firstOccAux k l [] [] (fun _ => rfl)

theorem dropDupsByAux_sublist (k : PatentRecord → List Char)
    (l : List PatentRecord) :
    ∀ seen : List (List Char), (dropDupsByAux k seen l).Sublist l := by
  induction l with
  | nil => intro seen; exact List.Sublist.refl []
  | cons r rs ih =>
    intro seen
    unfold dropDupsByAux
    by_cases hc : seen.contains (k r) = true
    · rw [if_pos hc]
      exact (ih seen).cons r
    · rw [if_neg hc]
      exact (ih (k r :: seen)).cons₂ r

/-- No pattern of the table matches the empty candidate (none is
nullable). -/
theorem table_no_match_nil :
    INSTITUTION_STANDARDS.all (fun e => !(pyMatch e.1 ([] : List Char))) = true := by
  decide

theorem findSome?_at_index {α β : Type} (f : α → Option β) (d : α) :
    ∀ (l : List α) (i : Nat), i < l.length →
    (∀ e ∈ l.take i, f e = none) →
    (f (l.getD i d)).isSome = true →
    l.findSome? f = f (l.getD i d) := by
  intro l
  induction l with
  | nil =>
    intro i hi
    exact absurd hi (by simp)
  | cons x xs ih =>
    intro i hi htake hsome
    cases i with
    | zero =>
      rw [List.findSome?_cons]
      rw [List.getD_cons_zero] at hsome ⊢
      cases hfx : f x with
      | some b => rfl
      | none =>
        rw [hfx] at hsome
        simp at hsome
    | succ n =>
      have hx : f x = none := htake x (by
        rw [List.take_succ_cons]
        exact List.mem_cons_self x _)
      rw [List.findSome?_cons, hx, List.getD_cons_succ]
      rw [List.getD_cons_succ] at hsome
      refine ih n (by simpa using hi) ?_ hsome
      intro e he
      refine htake e ?_
      rw [List.take_succ_cons]
      exact List.mem_cons_of_mem x he

/-- Once the candidate survives the garbage scan, `standardize_name`
returns exactly the result of the ordered table lookup. -/
theorem standardizeName_of_lookup (name : String) (std : String)
    (h0 : name ≠ "")
    (h1 : (candPre name).isEmpty = false)
    (hg : garbageHit (candKey name) = false)
    (hl : stdLookup (candKey name) = some std) :
    standardizeName name = std := by
  unfold standardizeName
  rw [if_neg h0]
  unfold candKey at hg hl
  simp only [h1, Bool.false_eq_true, if_false, hg, hl]

/-- A garbage-fragment hit makes `standardize_name` return the empty
string, whatever else the name contains. -/
theorem standardizeName_of_garbage (name : String)
    (hg : garbageHit (candKey name) = true) :
    standardizeName name = "" := by
  unfold standardizeName
  by_cases h0 : name = ""
  · rw [if_pos h0]
  · rw [if_neg h0]
    unfold candKey at hg
    by_cases h1 : (candPre name).isEmpty = true
    · simp only [h1, if_true]
    · have h1' : (candPre name).isEmpty = false := by
        revert h1
        cases (candPre name).isEmpty <;> simp
      simp only [h1', Bool.false_eq_true, if_false, hg, if_true]

theorem fieldPartsAux_sublist (ps : List String) :
    ∀ seen : List (List Char),
      (fieldPartsAux seen ps).Sublist (ps.map standardizeName) := by
  induction ps with
  | nil => intro seen; exact List.Sublist.refl []
  | cons p ps ih =>
    intro seen
    unfold fieldPartsAux
    by_cases hq : standardizeName p = ""
    · rw [if_pos hq]
      exact (ih seen).cons _
    · rw [if_neg hq]
      by_cases hk : (!(normKeyL (standardizeName p).data).isEmpty &&
          decide (1 < (normKeyL (standardizeName p).data).length) &&
          !seen.contains (normKeyL (standardizeName p).data)) = true
      · rw [if_pos hk]
        exact (ih _).cons₂ _
      · rw [if_neg hk]
        exact (ih seen).cons _

theorem fieldPartsAux_inv (ps : List String) :
    ∀ seen : List (List Char),
      ((fieldPartsAux seen ps).map (fun q => normKeyL q.data)).Nodup ∧
      ∀ q ∈ fieldPartsAux seen ps,
        2 ≤ (normKeyL q.data).length ∧ seen.contains (normKeyL q.data) = false := by
  induction ps with
  | nil => intro seen; exact ⟨List.nodup_nil, fun q hq => absurd hq (List.not_mem_nil q)⟩
  | cons p ps ih =>
    intro seen
    unfold fieldPartsAux
    by_cases hq : standardizeName p = ""
    · rw [if_pos hq]
      exact ih seen
    · rw [if_neg hq]
      by_cases hk : (!(normKeyL (standardizeName p).data).isEmpty &&
          decide (1 < (normKeyL (standardizeName p).data).length) &&
          !seen.contains (normKeyL (standardizeName p).data)) = true
      · rw [if_pos hk]
        obtain ⟨hk12, hk3⟩ := Bool.and_eq_true_iff.mp hk
        obtain ⟨_, hk2⟩ := Bool.and_eq_true_iff.mp hk12
        have hlen : 2 ≤ (normKeyL (standardizeName p).data).length := by
          have := of_decide_eq_true hk2
          omega
        have hseen : seen.contains (normKeyL (standardizeName p).data) = false := by
          revert hk3
          cases seen.contains (normKeyL (standardizeName p).data) <;> simp
        obtain ⟨ihnodup, ihmem⟩ := ih (normKeyL (standardizeName p).data :: seen)
        constructor
        · rw [List.map_cons, List.nodup_cons]
          refine ⟨?_, ihnodup⟩
          intro hmem
          obtain ⟨q, hqmem, hqkey⟩ := List.mem_map.mp hmem
          have := (ihmem q hqmem).2
          rw [hqkey, List.contains_cons] at this
          simp at this
        · intro q hqmem
          rcases List.mem_cons.mp hqmem with rfl | htail
          · exact ⟨hlen, hseen⟩
          · have h2 := (ihmem q htail).2
            rw [List.contains_cons] at h2
            refine ⟨(ihmem q htail).1, ?_⟩
            revert h2
            cases seen.contains (normKeyL q.data) <;> simp
      · rw [if_neg hk]
        exact ih seen

theorem pyLowerChar_ws {c : Char} (h : isPySpace c = true) :
    isPySpace (pyLowerChar c) = true := by
  have h' : ((((c = ' ' ∨ c = '\t') ∨ c = '\n') ∨ c = '\r') ∨ c = '\x0b') ∨ c = '\x0c' := by
    simpa [isPySpace] using h
  rcases h' with ((((rfl | rfl) | rfl) | rfl) | rfl) | rfl <;> decide

theorem pyStripL_all_ws (l : List Char) (h : ∀ c ∈ l, isPySpace c = true) :
    pyStripL l = [] := by
  have h1 : List.dropWhile isPySpace l.reverse = [] := by
    have := dropWhile_append_all (p := isPySpace) l.reverse []
      (fun c hc => h c (List.mem_reverse.mp hc))
    simpa using this
  unfold pyStripL dropTrail
  rw [h1]
  rfl

/-- With an empty lower-cased stripped name, the registry scan fires: the
empty string is a substring of every known-organization entry. -/
theorem isOrgAux_empty_key (orig : List Char) : isOrgAux orig [] = true := by
  have hkw : ORGANIZATION_KEYWORDS.any (fun k => isSubstr k.data ([] : List Char)) = false := by
    decide
  have horg : QATAR_ORGANIZATIONS.any (fun o =>
      isSubstr (toLowerL o.data) ([] : List Char)
        || isSubstr ([] : List Char) (toLowerL o.data)) = true := by
    decide
  unfold isOrgAux
  simp [hkw, horg]

/-- C10: after the date step, PatentYear equals the first four characters
of the (possibly reformatted) ApplicationDate, and is empty when the
date is empty. -/
theorem C10_patent_year (r : PatentRecord) :
    (formatDates r).PatentYear = pyStr ((formatDates r).ApplicationDate.data.take 4) ∧
    ((formatDates r).ApplicationDate = "" → (formatDates r).PatentYear = "") := by
  constructor
  · rfl
  · intro h
    have h1 : (formatDates r).PatentYear
        = pyStr ((formatDates r).ApplicationDate.data.take 4) := rfl
    rw [h1, h]
    rfl

/-- Witness for C10 at a concrete record with an empty date. -/
theorem C10_patent_year_witness : (formatDates sampleRec).PatentYear = "" :=
  (C10_patent_year sampleRec).2 (by decide)

/-- C9: `_deduplicate` is two sequential keep-first passes — pass 1 on the
verbatim ApplicationNumber, pass 2 on the lower-cased first 100 characters
of Title — and survivors keep their relative order (the result is a
sublist of the batch). -/
theorem C9_dedup_two_passes (l : List PatentRecord) :
    deduplicate l = firstOccSpec titleKey (firstOccSpec appVerbatimKey l) ∧
    (deduplicate l).Sublist l := by
  constructor
  · unfold deduplicate
    rw [dropDupsBy_eq_firstOccSpec, dropDupsBy_eq_firstOccSpec]
  · unfold deduplicate dropDupsBy
    exact (dropDupsByAux_sublist _ _ []).trans (dropDupsByAux_sublist _ _ [])

/-- C2: a batch record is truly new iff neither its normalized
application-number key nor its normalized title key occurs in the
corresponding key set of the (re-standardized) existing dataset; matching
on either key alone excludes it. -/
theorem C2_truly_new_iff (r : PatentRecord) (new ex : List PatentRecord) :
    r ∈ trulyNewList new ex ↔
      r ∈ new ∧ appKey r ∉ appKeys ex ∧ titleKey r ∉ titleKeys ex := by
  unfold trulyNewList tnPred
  rw [List.mem_filter]
  simp [and_assoc]

/-- C3: merging the same batch twice in a row classifies no record as
truly new on the second call (`new_count == 0`). -/
theorem C3_second_merge_adds_nothing (B D : List PatentRecord) :
    newCount B (mergeWithExisting B D) = 0 ∧
    trulyNewList B (mergeWithExisting B D) = [] := by
  refine ⟨?_, trulyNew_after_merge B D⟩
  unfold newCount
  rw [trulyNew_after_merge]
  rfl

/-- C1 counterexample: merging a one-record batch into an empty dataset
assigns ResourceId 50001, not the floor value 50000 claimed. -/
theorem C1_counterexample :
    (mergeWithExisting [{ sampleRec with ApplicationNumber := "EP1", Title := "Widget" }]
      []).map (fun r => r.ResourceId) = [50001] ∧ (50001 : Int) ≠ 50000 := by
  constructor
  · decide
  · decide

/-- C1 amended: against an empty existing dataset all batch records are
truly new and receive the contiguous ascending ResourceIds 50001, 50002,
…, i.e. the sequence starts one above the 50000 floor. -/
theorem C1_amended_merge_empty (new : List PatentRecord) :
    (mergeWithExisting new []).map (fun r => r.ResourceId) = intRange 50001 new.length ∧
    trulyNewList new [] = new ∧ newCount new [] = new.length := by
  have hcount : newCount new [] = new.length := by
    unfold newCount
    rw [trulyNew_empty]
  refine ⟨?_, trulyNew_empty new, hcount⟩
  have h := map_rid_mergeWith new []
  rw [h, hcount]
  rfl

/-- C6 counterexample: merge does not return the existing rows verbatim —
the defensive re-standardization pass strips a trailing space from a
Title, so the merged dataset is not literally the existing dataset. -/
theorem C6_counterexample :
    mergeWithExisting [] [{ sampleRec with Title := "Widget ", ResourceId := 7 }]
      ≠ [{ sampleRec with Title := "Widget ", ResourceId := 7 }] := by
  decide

/-- C6 amended: merge preserves every existing record's ResourceId and
the existing records' relative order — the ResourceId column of the
output is the existing column unchanged followed by the freshly assigned
range, and positionally the first `ex.length` rows are exactly the
re-standardized existing rows — but row contents may be altered by the
final standardization pass. -/
theorem C6_amended_frame (new ex : List PatentRecord) :
    (mergeWithExisting new ex).map (fun r => r.ResourceId)
      = ex.map (fun r => r.ResourceId)
        ++ intRange (maxRid (ex.map (fun r => r.ResourceId)) + 1) (newCount new ex) ∧
    (mergeWithExisting new ex).take ex.length = (stdExisting ex).map mergeStd ∧
    (mergeWithExisting new ex).length = ex.length + newCount new ex := by
  refine ⟨map_rid_mergeWith new ex, ?_, len_mergeWith new ex⟩
  unfold mergeWithExisting
  rw [List.map_append]
  apply List.take_left'
  simp [stdExisting]

/-- C5 counterexample: on the whitespace-only name `" "` the classifier
does not return false. -/
theorem C5_counterexample : isOrganization " " ≠ false := by decide

/-- C5 amended: `_is_organization` returns false on the empty string, but
returns true on every non-empty whitespace-only name: its lower-cased
stripped form is empty, and the empty string substring-matches every
entry of the known-organization registry. -/
theorem C5_amended_blank (s : String) (hne : s ≠ "")
    (hws : ∀ c ∈ s.data, isPySpace c = true) :
    isOrganization "" = false ∧ isOrganization s = true := by
  refine ⟨by decide, ?_⟩
  unfold isOrganization
  rw [if_neg hne]
  have hnil : pyStripL (toLowerL s.data) = [] := by
    apply pyStripL_all_ws
    intro c hc
    obtain ⟨d, hd, rfl⟩ := List.mem_map.mp hc
    exact pyLowerChar_ws (hws d hd)
  rw [hnil]
  exact isOrgAux_empty_key _

/-- Witness for C5 at the concrete blank name `" "`. -/
theorem C5_amended_blank_witness : isOrganization "" = false ∧ isOrganization " " = true :=
  C5_amended_blank " " (by decide) (by decide)

/-- C8: whenever the processed candidate (trimmed, country codes removed,
punctuation stripped, lower-cased) matches one of the ordered discard
patterns, `standardize_name` returns the empty string — whatever the
original case or surrounding punctuation was. -/
theorem C8_discard_fragment (name : String)
    (hg : garbageHit (candKey name) = true) :
    standardizeName name = "" :=
  standardizeName_of_garbage name hg

/-- Witness for C8: `"And Community Development"` matches the discard
pattern for a dangling `and …` continuation and is erased. -/
theorem C8_discard_fragment_witness :
    standardizeName "And Community Development" = "" :=
  C8_discard_fragment "And Community Development" (by decide)

/-- C7: `clean_name_field` splits on semicolons, standardizes each part,
discards empties and parts whose normalized key is shorter than two
characters, keeps only the first occurrence per normalized key (the kept
keys are distinct), preserves order (the kept parts form a sublist of the
standardized parts), joins the survivors with `"; "`, and collapses
`"ACME Corp; acme corp; ACME CORP."` to the single entry `"ACME Corp"`. -/
theorem C7_field_cleaning :
    (∀ v : String,
      ((fieldParts v).map (fun q => normKeyL q.data)).Nodup ∧
      (∀ q ∈ fieldParts v, 2 ≤ (normKeyL q.data).length) ∧
      (fieldParts v).Sublist (((splitOnC ';' v.data).map pyStr).map standardizeName) ∧
      cleanNameField v = String.intercalate "; " (fieldParts v)) ∧
    cleanNameField "ACME Corp; acme corp; ACME CORP." = "ACME Corp" := by
  constructor
  · intro v
    refine ⟨(fieldPartsAux_inv _ []).1, fun q hq => ((fieldPartsAux_inv _ []).2 q hq).1,
      fieldPartsAux_sublist _ [], ?_⟩
    unfold cleanNameField
    by_cases hv : v = ""
    · rw [if_pos hv, hv]
      decide
    · rw [if_neg hv]
  · decide

/-- C4: on a candidate that anchor-matches two patterns of the ordered
table (at positions `i < j`), with no earlier pattern matching and no
discard-pattern hit, `standardize_name` returns the canonical name of the
earlier pattern `i`; the later pattern `j` never determines the result. -/
theorem C4_first_match_wins (name : String) (i j : Nat)
    (hij : i < j) (hj : j < INSTITUTION_STANDARDS.length)
    (hi : pyMatch (INSTITUTION_STANDARDS.getD i dfltEntry).1 (candKey name) = true)
    (hjm : pyMatch (INSTITUTION_STANDARDS.getD j dfltEntry).1 (candKey name) = true)
    (hbefore : ∀ e ∈ INSTITUTION_STANDARDS.take i, pyMatch e.1 (candKey name) = false)
    (hg : garbageHit (candKey name) = false) :
    standardizeName name = (INSTITUTION_STANDARDS.getD i dfltEntry).2 := by
  have hi' : i < INSTITUTION_STANDARDS.length := Nat.lt_trans hij hj
  have hne : candKey name ≠ [] := by
    intro hnil
    rw [hnil] at hi
    have hmem : INSTITUTION_STANDARDS.getD i dfltEntry ∈ INSTITUTION_STANDARDS := by
      rw [List.getD_eq_getElem _ _ hi']
      exact List.getElem_mem hi'
    have hall := List.all_eq_true.mp table_no_match_nil _ hmem
    rw [hi] at hall
    simp at hall
  have h0 : name ≠ "" := by
    intro h
    apply hne
    rw [h]
    decide
  have h1 : (candPre name).isEmpty = false := by
    cases hemp : (candPre name).isEmpty
    · rfl
    · exfalso
      apply hne
      have hcp : candPre name = [] := by
        cases hx : candPre name
        · rfl
        · rw [hx] at hemp
          simp at hemp
      unfold candKey
      rw [hcp]
      rfl
  have hsome : stdLookup (candKey name)
      = some (INSTITUTION_STANDARDS.getD i dfltEntry).2 := by
    unfold stdLookup
    have hi2 := hi
    simp only [List.getD_eq_getElem?_getD] at hi2 ⊢
    have heq := findSome?_at_index
      (fun e : Pat × String => if pyMatch e.1 (candKey name) = true then some e.2 else none)
      dfltEntry INSTITUTION_STANDARDS i hi'
      (fun e he => by simp [hbefore e he])
      (by simp [hi2])
    rw [heq]
    simp [hi2]
  exact standardizeName_of_lookup name _ h0 h1 hg hsome

/-- Witness for C4: `"qatar foundation"` full-matches the table entry at
position 9 and also prefix-matches the later entry at position 14, no
earlier entry matches, and the result is the canonical name of entry 9. -/
theorem C4_first_match_wins_witness :
    standardizeName "qatar foundation" = (INSTITUTION_STANDARDS.getD 9 dfltEntry).2 :=
  C4_first_match_wins "qatar foundation" 9 14 (by decide) (by decide) (by decide)
    (by decide) (by decide) (by decide)
